import Mathlib

/-!
Verification of the windowed transcript/dice-roll alignment program
(`spat/preprocessing/align_transcripts.py`).

The embedding below mirrors the Python source:

* `Timestamp` with integer fields; the constructor's `assert` statements are
  modelled by `Timestamp.mkChecked`, which returns `none` exactly when an
  assertion would fail.  Python's floor division `//` and modulo `%` are
  `Int.fdiv` and `Int.fmod`.
* The comparison operators `__eq__`, `__lt__`, `__le__`, `__gt__`, `__ge__`
  become `Timestamp.eq`, `Timestamp.lt`, `Timestamp.le`, `Timestamp.gt`,
  `Timestamp.ge`.
* `__add__` / `__sub__` with an `int` operand become `addInt` / `subInt`;
  with a `Timestamp` operand they become `addTs` / `subTs`.
* `Caption` and `DiceRoll` are the records of the same names (the Python
  field `end` is spelled `endTime` because `end` is a Lean keyword).
* `generate_annotations` is split into `consumeLoop` (the inner
  `for caption in transcript_iterator` loop of one dice roll, returning the
  pre-roll captions, the post-roll captions, and the captions left on the
  iterator) and `generateAux` (the outer loop over rolls, keeping the
  caption lists of every roll); `generate_annotations` then joins the texts
  with single spaces exactly as the yielded dict does.  A raised exception
  anywhere is modelled as `none` for the whole run.
-/

structure Timestamp where
  hour : Int
  minute : Int
  second : Int
deriving DecidableEq

/-- The invariant checked by the asserts in `Timestamp.__init__`:
`0 <= second < 60`, `0 <= minute < 60`, `0 <= hour`. -/
def Timestamp.Valid (t : Timestamp) : Prop :=
  0 ≤ t.second ∧ t.second < 60 ∧ 0 ≤ t.minute ∧ t.minute < 60 ∧ 0 ≤ t.hour

instance (t : Timestamp) : Decidable t.Valid :=
  inferInstanceAs (Decidable
    (0 ≤ t.second ∧ t.second < 60 ∧ 0 ≤ t.minute ∧ t.minute < 60 ∧ 0 ≤ t.hour))

/-- `Timestamp(hour, minute, second)`: runs the constructor asserts; `none`
models an `AssertionError`. -/
def Timestamp.mkChecked (hour minute second : Int) : Option Timestamp :=
  if 0 ≤ second ∧ second < 60 ∧ 0 ≤ minute ∧ minute < 60 ∧ 0 ≤ hour then
    some ⟨hour, minute, second⟩
  else
    none

/-- `Timestamp.__int__`: linearized seconds. -/
def Timestamp.toInt (t : Timestamp) : Int :=
  t.second + 60 * t.minute + 3600 * t.hour

/-- `Timestamp.__eq__`: componentwise equality. -/
def Timestamp.eq (a b : Timestamp) : Bool :=
  a.hour == b.hour && a.minute == b.minute && a.second == b.second

/-- `Timestamp.__lt__`: `int(self) < int(rhs)`. -/
def Timestamp.lt (a b : Timestamp) : Bool :=
  decide (a.toInt < b.toInt)

/-- `Timestamp.__le__`: `int(self) <= int(rhs)`. -/
def Timestamp.le (a b : Timestamp) : Bool :=
  decide (a.toInt ≤ b.toInt)

/-- `Timestamp.__gt__`: `rhs < self`. -/
def Timestamp.gt (a b : Timestamp) : Bool :=
  Timestamp.lt b a

/-- `Timestamp.__ge__`: `rhs <= self`. -/
def Timestamp.ge (a b : Timestamp) : Bool :=
  Timestamp.le b a

/-- `Timestamp.__add__` with an `int` right operand. -/
def Timestamp.addInt (t : Timestamp) (rhs : Int) : Option Timestamp :=
  let second := t.second + rhs
  let remainder := Int.fdiv second 60
  let second := Int.fmod second 60
  let minute := t.minute + remainder
  let remainder := Int.fdiv minute 60
  let minute := Int.fmod minute 60
  let hour := t.hour + remainder
  Timestamp.mkChecked hour minute second

/-- `Timestamp.__add__` with a `Timestamp` right operand. -/
def Timestamp.addTs (t : Timestamp) (rhs : Timestamp) : Option Timestamp :=
  let second := t.second + rhs.second
  let remainder := Int.fdiv second 60
  let second := Int.fmod second 60
  let minute := t.minute + rhs.minute + remainder
  let remainder := Int.fdiv minute 60
  let minute := Int.fmod minute 60
  let hour := t.hour + rhs.hour + remainder
  Timestamp.mkChecked hour minute second

/-- `Timestamp.__sub__` with an `int` right operand. -/
def Timestamp.subInt (t : Timestamp) (rhs : Int) : Option Timestamp :=
  let second := t.second - rhs
  let remainder := Int.fdiv second 60
  let second := Int.fmod second 60
  let minute := t.minute + remainder
  let remainder := Int.fdiv minute 60
  let minute := Int.fmod minute 60
  let hour := t.hour + remainder
  Timestamp.mkChecked hour minute second

/-- `Timestamp.__sub__` with a `Timestamp` right operand. -/
def Timestamp.subTs (t : Timestamp) (rhs : Timestamp) : Option Timestamp :=
  let second := t.second - rhs.second
  let remainder := Int.fdiv second 60
  let second := Int.fmod second 60
  let minute := t.minute - rhs.minute + remainder
  let remainder := Int.fdiv minute 60
  let minute := Int.fmod minute 60
  let hour := t.hour - rhs.hour + remainder
  Timestamp.mkChecked hour minute second

/-- The `Caption` record (`end` is spelled `endTime`). -/
structure Caption where
  index : Int
  start : Timestamp
  endTime : Timestamp
  text : String
deriving DecidableEq

/-- The `DiceRoll` record. -/
structure DiceRoll where
  timestamp : Timestamp
  roll_type : String
  value : Int
  critical : Bool
deriving DecidableEq

/-- The dict yielded by `generate_annotations` for one dice roll. -/
structure AnnRecord where
  context : String
  consequence : String
  roll_type : String
  value : Int
  critical : Bool
deriving DecidableEq

/-- The inner `for caption in transcript_iterator` loop of
`generate_annotations` for one dice roll, with `wb = window_beginning`,
`wm = window_middle`, `we = window_end`.  Returns
`(pre_roll_captions, post_roll_captions, captions left on the iterator)`.
Note the Python `break` consumes the caption that triggered it: that
caption appears in none of the three returned lists. -/
def consumeLoop (wb wm we : Timestamp) : List Caption → List Caption × List Caption × List Caption
  | [] => ([], [], [])
  | c :: rest =>
    if Timestamp.lt c.start wb then
      consumeLoop wb wm we rest
    else if Timestamp.gt c.start we then
      ([], [], rest)
    else if Timestamp.lt c.endTime wm then
      let r := consumeLoop wb wm we rest
      (c :: r.1, r.2.1, r.2.2)
    else
      let r := consumeLoop wb wm we rest
      (r.1, c :: r.2.1, r.2.2)

/-- The captions gathered for one dice roll, before their texts are joined. -/
structure RollSegment where
  pre : List Caption
  post : List Caption
  roll : DiceRoll
deriving DecidableEq

/-- The outer loop of `generate_annotations` over dice rolls, sharing one
caption iterator across rolls, but keeping the classified caption lists of
every roll instead of the joined texts.  `none` models a raised
`AssertionError` (from `dice_roll.timestamp - window` or
`dice_roll.timestamp + window`). -/
def generateAux (window : Int) : List Caption → List DiceRoll → Option (List RollSegment)
  | _, [] => some []
  | cs, r :: rs =>
    match Timestamp.subInt r.timestamp window with
    | none => none
    | some wb =>
      match Timestamp.addInt r.timestamp window with
      | none => none
      | some we =>
        let t := consumeLoop wb r.timestamp we cs
        match generateAux window t.2.2 rs with
        | none => none
        | some segs => some (⟨t.1, t.2.1, r⟩ :: segs)

/-- The dict built at the end of each iteration of `generate_annotations`:
texts joined by single spaces, roll fields copied. -/
def segRecord (seg : RollSegment) : AnnRecord :=
  ⟨String.intercalate " " (seg.pre.map Caption.text),
   String.intercalate " " (seg.post.map Caption.text),
   seg.roll.roll_type, seg.roll.value, seg.roll.critical⟩

/-- `generate_annotations(transcript, dice_rolls, window)`: the full list of
yielded dicts, or `none` when the generator raises. -/
def generate_annotations (window : Int) (transcript : List Caption)
    (dice_rolls : List DiceRoll) : Option (List AnnRecord) :=
  (generateAux window transcript dice_rolls).map (List.map segRecord)

example : Timestamp.subInt ⟨0, 0, 5⟩ 10 = none := by decide

example : Timestamp.subInt ⟨0, 0, 10⟩ 2 = some ⟨0, 0, 8⟩ := by decide

example :
    generate_annotations 5
      [⟨1, ⟨0, 0, 5⟩, ⟨0, 0, 8⟩, "A"⟩, ⟨2, ⟨0, 0, 12⟩, ⟨0, 0, 14⟩, "B"⟩]
      [⟨⟨0, 0, 10⟩, "Attack", 15, false⟩] =
    some [⟨"A", "B", "Attack", 15, false⟩] := by decide

/-! ### Arithmetic facts about the sexagesimal carry chain -/

lemma fmod60_nonneg (a : Int) : 0 ≤ Int.fmod a 60 := by
  rw [Int.fmod_eq_emod a (by norm_num)]
  exact Int.emod_nonneg a (by norm_num)

lemma fmod60_lt (a : Int) : Int.fmod a 60 < 60 := by
  rw [Int.fmod_eq_emod a (by norm_num)]
  exact Int.emod_lt_of_pos a (by norm_num)

lemma carry_spec (H M S : Int) (h : 0 ≤ 3600 * H + 60 * M + S) :
    ∃ u : Timestamp,
      Timestamp.mkChecked (H + Int.fdiv (M + Int.fdiv S 60) 60)
        (Int.fmod (M + Int.fdiv S 60) 60) (Int.fmod S 60) = some u ∧
      u.Valid ∧ u.toInt = 3600 * H + 60 * M + S := by
  have e1 := Int.fdiv_add_fmod S 60
  have e2 := Int.fdiv_add_fmod (M + Int.fdiv S 60) 60
  have p1 := fmod60_nonneg S
  have q1 := fmod60_lt S
  have p2 := fmod60_nonneg (M + Int.fdiv S 60)
  have q2 := fmod60_lt (M + Int.fdiv S 60)
  refine ⟨⟨H + Int.fdiv (M + Int.fdiv S 60) 60,
          Int.fmod (M + Int.fdiv S 60) 60, Int.fmod S 60⟩, ?_, ?_, ?_⟩
  · simp only [Timestamp.mkChecked]
    rw [if_pos]
    exact ⟨p1, q1, p2, q2, by omega⟩
  · refine ⟨p1, q1, p2, q2, ?_⟩
    show 0 ≤ H + Int.fdiv (M + Int.fdiv S 60) 60
    omega
  · show Int.fmod S 60 + 60 * Int.fmod (M + Int.fdiv S 60) 60 +
      3600 * (H + Int.fdiv (M + Int.fdiv S 60) 60) = 3600 * H + 60 * M + S
    omega

lemma carry_none (H M S : Int) (h : 3600 * H + 60 * M + S < 0) :
    Timestamp.mkChecked (H + Int.fdiv (M + Int.fdiv S 60) 60)
      (Int.fmod (M + Int.fdiv S 60) 60) (Int.fmod S 60) = none := by
  have e1 := Int.fdiv_add_fmod S 60
  have e2 := Int.fdiv_add_fmod (M + Int.fdiv S 60) 60
  have p1 := fmod60_nonneg S
  have q1 := fmod60_lt S
  have p2 := fmod60_nonneg (M + Int.fdiv S 60)
  have q2 := fmod60_lt (M + Int.fdiv S 60)
  simp only [Timestamp.mkChecked]
  rw [if_neg]
  intro hc
  obtain ⟨_, _, _, _, h5⟩ := hc
  omega

lemma addInt_eq_carry (t : Timestamp) (k : Int) :
    t.addInt k = Timestamp.mkChecked
      (t.hour + Int.fdiv (t.minute + Int.fdiv (t.second + k) 60) 60)
      (Int.fmod (t.minute + Int.fdiv (t.second + k) 60) 60)
      (Int.fmod (t.second + k) 60) := rfl

lemma subInt_eq_carry (t : Timestamp) (k : Int) :
    t.subInt k = Timestamp.mkChecked
      (t.hour + Int.fdiv (t.minute + Int.fdiv (t.second - k) 60) 60)
      (Int.fmod (t.minute + Int.fdiv (t.second - k) 60) 60)
      (Int.fmod (t.second - k) 60) := rfl

lemma addTs_eq_carry (t rhs : Timestamp) :
    t.addTs rhs = Timestamp.mkChecked
      ((t.hour + rhs.hour) + Int.fdiv ((t.minute + rhs.minute) + Int.fdiv (t.second + rhs.second) 60) 60)
      (Int.fmod ((t.minute + rhs.minute) + Int.fdiv (t.second + rhs.second) 60) 60)
      (Int.fmod (t.second + rhs.second) 60) := rfl

lemma subTs_eq_carry (t rhs : Timestamp) :
    t.subTs rhs = Timestamp.mkChecked
      ((t.hour - rhs.hour) + Int.fdiv ((t.minute - rhs.minute) + Int.fdiv (t.second - rhs.second) 60) 60)
      (Int.fmod ((t.minute - rhs.minute) + Int.fdiv (t.second - rhs.second) 60) 60)
      (Int.fmod (t.second - rhs.second) 60) := rfl

lemma toInt_nonneg (t : Timestamp) (h : t.Valid) : 0 ≤ t.toInt := by
  obtain ⟨h1, h2, h3, h4, h5⟩ := h
  simp only [Timestamp.toInt]
  omega

lemma addInt_spec (t : Timestamp) (k : Int) (h : 0 ≤ t.toInt + k) :
    ∃ u, t.addInt k = some u ∧ u.Valid ∧ u.toInt = t.toInt + k := by
  rw [addInt_eq_carry]
  obtain ⟨u, hu, hv, ht⟩ :=
    carry_spec t.hour t.minute (t.second + k)
      (by simp only [Timestamp.toInt] at h; omega)
  exact ⟨u, hu, hv, by simp only [Timestamp.toInt] at ht ⊢; omega⟩

lemma addInt_none (t : Timestamp) (k : Int) (h : t.toInt + k < 0) :
    t.addInt k = none := by
  rw [addInt_eq_carry]
  exact carry_none t.hour t.minute (t.second + k)
    (by simp only [Timestamp.toInt] at h; omega)

lemma subInt_spec (t : Timestamp) (k : Int) (h : 0 ≤ t.toInt - k) :
    ∃ u, t.subInt k = some u ∧ u.Valid ∧ u.toInt = t.toInt - k := by
  rw [subInt_eq_carry]
  obtain ⟨u, hu, hv, ht⟩ :=
    carry_spec t.hour t.minute (t.second - k)
      (by simp only [Timestamp.toInt] at h; omega)
  exact ⟨u, hu, hv, by simp only [Timestamp.toInt] at ht ⊢; omega⟩

lemma subInt_none (t : Timestamp) (k : Int) (h : t.toInt - k < 0) :
    t.subInt k = none := by
  rw [subInt_eq_carry]
  exact carry_none t.hour t.minute (t.second - k)
    (by simp only [Timestamp.toInt] at h; omega)

lemma addTs_spec (t rhs : Timestamp) (h : 0 ≤ t.toInt + rhs.toInt) :
    ∃ u, t.addTs rhs = some u ∧ u.Valid ∧ u.toInt = t.toInt + rhs.toInt := by
  rw [addTs_eq_carry]
  obtain ⟨u, hu, hv, ht⟩ :=
    carry_spec (t.hour + rhs.hour) (t.minute + rhs.minute) (t.second + rhs.second)
      (by simp only [Timestamp.toInt] at h; omega)
  exact ⟨u, hu, hv, by simp only [Timestamp.toInt] at ht ⊢; omega⟩

lemma subTs_spec (t rhs : Timestamp) (h : 0 ≤ t.toInt - rhs.toInt) :
    ∃ u, t.subTs rhs = some u ∧ u.Valid ∧ u.toInt = t.toInt - rhs.toInt := by
  rw [subTs_eq_carry]
  obtain ⟨u, hu, hv, ht⟩ :=
    carry_spec (t.hour - rhs.hour) (t.minute - rhs.minute) (t.second - rhs.second)
      (by simp only [Timestamp.toInt] at h; omega)
  exact ⟨u, hu, hv, by simp only [Timestamp.toInt] at ht ⊢; omega⟩

lemma subTs_none (t rhs : Timestamp) (h : t.toInt - rhs.toInt < 0) :
    t.subTs rhs = none := by
  rw [subTs_eq_carry]
  exact carry_none (t.hour - rhs.hour) (t.minute - rhs.minute) (t.second - rhs.second)
    (by simp only [Timestamp.toInt] at h; omega)

lemma toInt_inj (a b : Timestamp) (ha : a.Valid) (hb : b.Valid)
    (h : a.toInt = b.toInt) : a = b := by
  cases a
  cases b
  simp only [Timestamp.Valid] at ha hb
  simp only [Timestamp.toInt] at h
  simp only [Timestamp.mk.injEq]
  omega

/-! ### Structural facts about the aligner loops -/

lemma generateAux_total (window : Int) (hw : 0 ≤ window) :
    ∀ (rolls : List DiceRoll) (cs : List Caption),
      (∀ r ∈ rolls, r.timestamp.Valid ∧ window ≤ r.timestamp.toInt) →
      ∃ segs, generateAux window cs rolls = some segs ∧
        List.Forall₂ (fun s r => s.roll = r) segs rolls := by
  intro rolls
  induction rolls with
  | nil =>
    intro cs _
    exact ⟨[], rfl, List.Forall₂.nil⟩
  | cons r rs ih =>
    intro cs hvalid
    obtain ⟨hv, hle⟩ := hvalid r (List.mem_cons_self r rs)
    obtain ⟨wb, hwb, _, _⟩ := subInt_spec r.timestamp window (by omega)
    obtain ⟨we, hwe, _, _⟩ := addInt_spec r.timestamp window
      (by have := toInt_nonneg r.timestamp hv; omega)
    obtain ⟨segs, hsegs, hf⟩ :=
      ih (consumeLoop wb r.timestamp we cs).2.2
        (fun r' hr' => hvalid r' (List.mem_cons_of_mem r hr'))
    refine ⟨⟨(consumeLoop wb r.timestamp we cs).1,
             (consumeLoop wb r.timestamp we cs).2.1, r⟩ :: segs, ?_,
           List.Forall₂.cons rfl hf⟩
    simp only [generateAux, hwb, hwe, hsegs]

lemma consumeLoop_split (wb wm we : Timestamp) :
    ∀ cs : List Caption, ∃ p0 : List Caption,
      cs = p0 ++ (consumeLoop wb wm we cs).2.2 ∧
      ∀ c : Caption,
        c ∈ (consumeLoop wb wm we cs).1 ∨ c ∈ (consumeLoop wb wm we cs).2.1 →
        c ∈ p0 := by
  intro cs
  induction cs with
  | nil =>
    refine ⟨[], rfl, ?_⟩
    intro c hc
    simp [consumeLoop] at hc
  | cons c rest ih =>
    obtain ⟨p0, hp, hm⟩ := ih
    by_cases h1 : Timestamp.lt c.start wb = true
    · have hcl : consumeLoop wb wm we (c :: rest) = consumeLoop wb wm we rest := by
        simp only [consumeLoop]
        rw [if_pos h1]
      refine ⟨c :: p0, ?_, ?_⟩
      · rw [hcl]
        simpa using hp
      · intro x hx
        rw [hcl] at hx
        exact List.mem_cons_of_mem c (hm x hx)
    · by_cases h2 : Timestamp.gt c.start we = true
      · have hcl : consumeLoop wb wm we (c :: rest) = ([], [], rest) := by
          simp only [consumeLoop]
          rw [if_neg h1, if_pos h2]
        refine ⟨[c], ?_, ?_⟩
        · rw [hcl]
          rfl
        · intro x hx
          rw [hcl] at hx
          simp at hx
      · by_cases h3 : Timestamp.lt c.endTime wm = true
        · have hcl : consumeLoop wb wm we (c :: rest) =
              (c :: (consumeLoop wb wm we rest).1,
               (consumeLoop wb wm we rest).2.1,
               (consumeLoop wb wm we rest).2.2) := by
            simp only [consumeLoop]
            rw [if_neg h1, if_neg h2, if_pos h3]
          refine ⟨c :: p0, ?_, ?_⟩
          · rw [hcl]
            simpa using hp
          · intro x hx
            rw [hcl] at hx
            rcases hx with hx | hx
            · rcases List.mem_cons.mp hx with hx0 | hx1
              · exact hx0 ▸ List.mem_cons_self x p0
              · exact List.mem_cons_of_mem c (hm x (Or.inl hx1))
            · exact List.mem_cons_of_mem c (hm x (Or.inr hx))
        · have hcl : consumeLoop wb wm we (c :: rest) =
              ((consumeLoop wb wm we rest).1,
               c :: (consumeLoop wb wm we rest).2.1,
               (consumeLoop wb wm we rest).2.2) := by
            simp only [consumeLoop]
            rw [if_neg h1, if_neg h2, if_neg h3]
          refine ⟨c :: p0, ?_, ?_⟩
          · rw [hcl]
            simpa using hp
          · intro x hx
            rw [hcl] at hx
            rcases hx with hx | hx
            · exact List.mem_cons_of_mem c (hm x (Or.inl hx))
            · rcases List.mem_cons.mp hx with hx0 | hx1
              · exact hx0 ▸ List.mem_cons_self x p0
              · exact List.mem_cons_of_mem c (hm x (Or.inr hx1))

lemma generateAux_subset (window : Int) :
    ∀ (rolls : List DiceRoll) (cs : List Caption) (segs : List RollSegment),
      generateAux window cs rolls = some segs →
      ∀ s ∈ segs, ∀ c : Caption, c ∈ s.pre ∨ c ∈ s.post → c ∈ cs := by
  intro rolls
  induction rolls with
  | nil =>
    intro cs segs h s hs c hc
    simp only [generateAux, Option.some.injEq] at h
    subst h
    simp at hs
  | cons r rs ih =>
    intro cs segs h s hs c hc
    cases hwb : Timestamp.subInt r.timestamp window with
    | none => simp [generateAux, hwb] at h
    | some wb =>
      cases hwe : Timestamp.addInt r.timestamp window with
      | none => simp [generateAux, hwb, hwe] at h
      | some we =>
        cases hrec : generateAux window (consumeLoop wb r.timestamp we cs).2.2 rs with
        | none => simp [generateAux, hwb, hwe, hrec] at h
        | some segs2 =>
          simp only [generateAux, hwb, hwe, hrec, Option.some.injEq] at h
          subst h
          obtain ⟨p0, hp, hm⟩ := consumeLoop_split wb r.timestamp we cs
          rcases List.mem_cons.mp hs with hs0 | hs1
          · subst hs0
            rw [hp]
            exact List.mem_append_left _ (hm c hc)
          · rw [hp]
            exact List.mem_append_right _ (ih _ segs2 hrec s hs1 c hc)

lemma mkChecked_valid (h m s : Int) (u : Timestamp)
    (hu : Timestamp.mkChecked h m s = some u) : u.Valid := by
  by_cases hc : 0 ≤ s ∧ s < 60 ∧ 0 ≤ m ∧ m < 60 ∧ 0 ≤ h
  · unfold Timestamp.mkChecked at hu
    rw [if_pos hc] at hu
    cases hu
    exact hc
  · unfold Timestamp.mkChecked at hu
    rw [if_neg hc] at hu
    cases hu

/-- The ordering invariant assumed of the caption source: captions ascending
by `start`. -/
def startOrdered (cs : List Caption) : Prop :=
  cs.Chain' fun a b => Timestamp.le a.start b.start = true

/-- The ordering invariant assumed of the dice-roll source: rolls ascending
by `timestamp`. -/
def rollOrdered (rolls : List DiceRoll) : Prop :=
  rolls.Chain' fun a b => Timestamp.le a.timestamp b.timestamp = true

instance (cs : List Caption) : Decidable (startOrdered cs) :=
  inferInstanceAs (Decidable
    (cs.Chain' fun (a b : Caption) => Timestamp.le a.start b.start = true))

instance (rolls : List DiceRoll) : Decidable (rollOrdered rolls) :=
  inferInstanceAs (Decidable
    (rolls.Chain' fun (a b : DiceRoll) => Timestamp.le a.timestamp b.timestamp = true))

/-- C1: the caption whose `start` first exceeds `window_end` is NOT left for
the next roll: the `for caption in transcript_iterator` loop consumes it
before `break`, so it is lost.  Here the caption starting at 00:00:19 lies
inside the second roll's window [00:00:18, 00:00:22] (first conjunct), yet
the second roll's annotation is empty: the caption was consumed when the
first roll (window [00:00:08, 00:00:12]) hit `break` on it.  The spec's
"that caption remains unconsumed and will be re-examined for the next roll"
would instead give the second annotation consequence "LOST". -/
theorem break_consumes_boundary_caption :
    (Timestamp.lt (⟨0, 0, 19⟩ : Timestamp) ⟨0, 0, 18⟩ = false ∧
     Timestamp.gt (⟨0, 0, 19⟩ : Timestamp) ⟨0, 0, 22⟩ = false) ∧
    generate_annotations 2 [⟨1, ⟨0, 0, 19⟩, ⟨0, 0, 21⟩, "LOST"⟩]
      [⟨⟨0, 0, 10⟩, "Attack", 5, false⟩, ⟨⟨0, 0, 20⟩, "Save", 7, false⟩] =
      some [⟨"", "", "Attack", 5, false⟩, ⟨"", "", "Save", 7, false⟩] := by
  decide

/-- C2 counterexample: well-formed inputs (empty caption list, a single
valid roll at 00:00:05, window 10 ≥ 0) on which `generate_annotations`
raises: `dice_roll.timestamp - window` computes hour `-1` and the
`Timestamp` constructor assertion fails. -/
theorem aligner_raises_on_small_timestamp :
    generate_annotations 10 [] [⟨⟨0, 0, 5⟩, "Attack", 3, false⟩] = none := by
  decide

/-- C2 amended: `generate_annotations` completes without raising provided
every roll's timestamp is at least `window` seconds after 00:00:00
(`window ≤ int(roll.timestamp)`); the counterexample above shows the
unrestricted claim fails when a roll is earlier than that. -/
theorem aligner_total_when_window_le_timestamps (window : Int)
    (cs : List Caption) (rolls : List DiceRoll) (hw : 0 ≤ window)
    (hcs : startOrdered cs) (hrs : rollOrdered rolls)
    (hvalid : ∀ r ∈ rolls, r.timestamp.Valid ∧ window ≤ r.timestamp.toInt) :
    (generate_annotations window cs rolls).isSome = true := by
  obtain ⟨segs, hsegs, _⟩ := generateAux_total window hw rolls cs hvalid
  simp [generate_annotations, hsegs]

theorem aligner_total_when_window_le_timestamps_witness :
    (generate_annotations 1 [] [⟨⟨0, 0, 5⟩, "Attack", 3, false⟩]).isSome = true :=
  aligner_total_when_window_le_timestamps 1 [] [⟨⟨0, 0, 5⟩, "Attack", 3, false⟩]
    (by decide) List.chain'_nil (List.chain'_singleton _) (by decide)

/-- C5 counterexample: a well-formed one-roll input (window 7 ≥ 0, sorted
lists, valid timestamps) on which `generate_annotations` raises while
computing `00:00:03 - 7`, so it yields zero annotations although one roll
was supplied — not exactly one annotation per roll. -/
theorem aligner_can_drop_annotations :
    generate_annotations 7 [⟨1, ⟨0, 0, 1⟩, ⟨0, 0, 2⟩, "A"⟩]
      [⟨⟨0, 0, 3⟩, "Save", 4, true⟩] = none := by
  decide

/-- C5 amended: under the extra hypothesis that each roll's timestamp is at
least `window` seconds after 00:00:00 (forced by the counterexample above),
`generate_annotations` yields exactly one annotation per input dice roll,
in roll order, carrying that roll's `roll_type`, `value` and `critical`
unchanged (`List.Forall₂` pairs the annotations with the rolls in order). -/
theorem one_annotation_per_roll (window : Int)
    (cs : List Caption) (rolls : List DiceRoll) (hw : 0 ≤ window)
    (hcs : startOrdered cs) (hrs : rollOrdered rolls)
    (hvalid : ∀ r ∈ rolls, r.timestamp.Valid ∧ window ≤ r.timestamp.toInt) :
    ∃ l, generate_annotations window cs rolls = some l ∧
      List.Forall₂ (fun a r => a.roll_type = r.roll_type ∧ a.value = r.value ∧
        a.critical = r.critical) l rolls := by
  obtain ⟨segs, hsegs, hf⟩ := generateAux_total window hw rolls cs hvalid
  refine ⟨segs.map segRecord, by simp [generate_annotations, hsegs], ?_⟩
  rw [List.forall₂_map_left_iff]
  refine List.Forall₂.imp ?_ hf
  intro s r h
  subst h
  exact ⟨rfl, rfl, rfl⟩

theorem one_annotation_per_roll_witness :
    ∃ l : List AnnRecord, generate_annotations 5 [⟨1, ⟨0, 0, 6⟩, ⟨0, 0, 8⟩, "A"⟩]
        [⟨⟨0, 0, 10⟩, "Attack", 15, false⟩] = some l ∧
      List.Forall₂ (fun (a : AnnRecord) (r : DiceRoll) =>
        a.roll_type = r.roll_type ∧ a.value = r.value ∧
        a.critical = r.critical) l [⟨⟨0, 0, 10⟩, "Attack", 15, false⟩] :=
  one_annotation_per_roll 5 [⟨1, ⟨0, 0, 6⟩, ⟨0, 0, 8⟩, "A"⟩]
    [⟨⟨0, 0, 10⟩, "Attack", 15, false⟩]
    (by decide) (List.chain'_singleton _) (List.chain'_singleton _) (by decide)

/-- C8: with `window = 0` the window is the single instant
[roll.timestamp, roll.timestamp]: the caption starting exactly at the
roll's timestamp 00:00:10 is included (its end 00:00:11 is not before the
roll, so it lands in consequence), while the caption starting one second
later (00:00:11) is excluded from the annotation. -/
theorem window_zero_boundary :
    generate_annotations 0
      [⟨1, ⟨0, 0, 10⟩, ⟨0, 0, 11⟩, "X"⟩, ⟨2, ⟨0, 0, 11⟩, ⟨0, 0, 12⟩, "Y"⟩]
      [⟨⟨0, 0, 10⟩, "Save", 7, false⟩] =
      some [⟨"", "X", "Save", 7, false⟩] := by
  decide

/-- C3 counterexample: the round-trip `(t + k) - k == t` does not hold for
every integer `k`: with `t = 00:00:00` and `k = -1` the addition `t + k`
already raises (borrow makes the hour `-1`, failing the constructor
assertion), so the round-trip produces no value at all. -/
theorem add_negative_seconds_fails_roundtrip :
    (Timestamp.addInt ⟨0, 0, 0⟩ (-1)).bind (fun u => Timestamp.subInt u (-1)) ≠
      some ⟨0, 0, 0⟩ := by
  decide

/-- C3 amended: the round-trip `(t + k) - k == t` holds for every valid
Timestamp `t` and every integer `k` such that `t + k` does not raise, i.e.
`0 ≤ int(t) + k` (the counterexample above forces this restriction for
negative `k`); carries across the second/minute/hour boundaries are handled
by the arithmetic, and Python's `==` (componentwise `Timestamp.eq`) accepts
the result. -/
theorem addInt_subInt_roundtrip (t : Timestamp) (k : Int) (hv : t.Valid)
    (h : 0 ≤ t.toInt + k) :
    ∃ u v, t.addInt k = some u ∧ u.subInt k = some v ∧ v = t ∧
      Timestamp.eq v t = true := by
  have hn := toInt_nonneg t hv
  obtain ⟨u, hu, huv, hut⟩ := addInt_spec t k h
  obtain ⟨v, hv2, hvv, hvt⟩ := subInt_spec u k (by omega)
  have hvteq : v = t := toInt_inj v t hvv hv (by omega)
  subst hvteq
  exact ⟨u, v, hu, hv2, rfl, by simp [Timestamp.eq]⟩

theorem addInt_subInt_roundtrip_witness :
    ∃ u v, Timestamp.addInt ⟨0, 0, 59⟩ 61 = some u ∧
      Timestamp.subInt u 61 = some v ∧ v = (⟨0, 0, 59⟩ : Timestamp) ∧
      Timestamp.eq v ⟨0, 0, 59⟩ = true :=
  addInt_subInt_roundtrip ⟨0, 0, 59⟩ 61 (by decide) (by decide)

/-- C4 counterexample: at the concrete pair `t1 = 00:00:00 < t2 = 00:00:01`
the subtraction `t1 - t2` does NOT return a value with a negative component:
it fails (the normalized second and minute are in `[0, 60)` thanks to
Python's floor modulo, the hour is `-1`, and the constructor assertion
raises). -/
theorem sub_smaller_timestamp_fails_not_negative :
    Timestamp.lt ⟨0, 0, 0⟩ ⟨0, 0, 1⟩ = true ∧
    Timestamp.subTs ⟨0, 0, 0⟩ ⟨0, 0, 1⟩ = none := by
  decide

/-- C4 amended: the subtraction arithmetic itself has no guard, but the
constructor assertion fires: for all valid Timestamps `t1 < t2`, `t1 - t2`
raises (returns no value) rather than returning a Timestamp with a negative
component, and any Timestamp subtraction that does return a value returns a
valid one (all components in range). -/
theorem subTs_lt_raises (t1 t2 : Timestamp) (h1 : t1.Valid) (h2 : t2.Valid)
    (hlt : Timestamp.lt t1 t2 = true) :
    Timestamp.subTs t1 t2 = none ∧
    ∀ a b u : Timestamp, Timestamp.subTs a b = some u → u.Valid := by
  constructor
  · have hint : t1.toInt < t2.toInt := by
      simpa [Timestamp.lt] using hlt
    exact subTs_none t1 t2 (by omega)
  · intro a b u hu
    rw [subTs_eq_carry] at hu
    exact mkChecked_valid _ _ _ u hu

theorem subTs_lt_raises_witness :
    Timestamp.subTs ⟨0, 1, 0⟩ ⟨0, 2, 0⟩ = none :=
  (subTs_lt_raises ⟨0, 1, 0⟩ ⟨0, 2, 0⟩ (by decide) (by decide) (by decide)).1

/-- C9: on valid Timestamps the comparison operators coincide with
comparison of the linearized second counts `int(t) = second + 60*minute +
3600*hour` (`eq` moreover coincides with structural equality), and they
form a strict total order: `lt` is irreflexive and transitive, exactly one
of `lt`, `eq`, `gt` holds for every pair. -/
theorem timestamp_order_total (t1 t2 t3 : Timestamp)
    (h1 : t1.Valid) (h2 : t2.Valid) (h3 : t3.Valid) :
    (Timestamp.eq t1 t2 = true ↔ t1.toInt = t2.toInt) ∧
    (Timestamp.eq t1 t2 = true ↔ t1 = t2) ∧
    (Timestamp.lt t1 t2 = true ↔ t1.toInt < t2.toInt) ∧
    (Timestamp.le t1 t2 = true ↔ t1.toInt ≤ t2.toInt) ∧
    (Timestamp.gt t1 t2 = true ↔ t2.toInt < t1.toInt) ∧
    (Timestamp.ge t1 t2 = true ↔ t2.toInt ≤ t1.toInt) ∧
    Timestamp.lt t1 t1 = false ∧
    (Timestamp.lt t1 t2 = true → Timestamp.lt t2 t3 = true →
      Timestamp.lt t1 t3 = true) ∧
    (Timestamp.lt t1 t2 = true ∨ Timestamp.eq t1 t2 = true ∨
      Timestamp.gt t1 t2 = true) ∧
    ¬(Timestamp.lt t1 t2 = true ∧ Timestamp.eq t1 t2 = true) ∧
    ¬(Timestamp.lt t1 t2 = true ∧ Timestamp.gt t1 t2 = true) ∧
    ¬(Timestamp.eq t1 t2 = true ∧ Timestamp.gt t1 t2 = true) := by
  have heq : Timestamp.eq t1 t2 = true ↔ t1.toInt = t2.toInt := by
    constructor
    · intro h
      simp only [Timestamp.eq, Bool.and_eq_true, beq_iff_eq] at h
      simp only [Timestamp.toInt, h.1.1, h.1.2, h.2]
    · intro h
      have ht := toInt_inj t1 t2 h1 h2 h
      subst ht
      simp [Timestamp.eq]
  have hlt : ∀ a b : Timestamp, Timestamp.lt a b = true ↔ a.toInt < b.toInt := by
    intro a b
    simp [Timestamp.lt]
  have hle : ∀ a b : Timestamp, Timestamp.le a b = true ↔ a.toInt ≤ b.toInt := by
    intro a b
    simp [Timestamp.le]
  refine ⟨heq,
    ⟨fun h => toInt_inj t1 t2 h1 h2 (heq.mp h), fun h => by subst h; simp [Timestamp.eq]⟩,
    hlt t1 t2, hle t1 t2, hlt t2 t1, hle t2 t1, by simp [Timestamp.lt], ?_, ?_, ?_, ?_, ?_⟩
  · intro ha hb
    exact (hlt t1 t3).mpr (lt_trans ((hlt t1 t2).mp ha) ((hlt t2 t3).mp hb))
  · rcases lt_trichotomy t1.toInt t2.toInt with h | h | h
    · exact Or.inl ((hlt t1 t2).mpr h)
    · exact Or.inr (Or.inl (heq.mpr h))
    · exact Or.inr (Or.inr ((hlt t2 t1).mpr h))
  · intro hc
    have ha := (hlt t1 t2).mp hc.1
    have hb := heq.mp hc.2
    omega
  · intro hc
    have ha := (hlt t1 t2).mp hc.1
    have hb := (hlt t2 t1).mp hc.2
    omega
  · intro hc
    have ha := heq.mp hc.1
    have hb := (hlt t2 t1).mp hc.2
    omega

theorem timestamp_order_total_witness :
    Timestamp.eq ⟨0, 0, 1⟩ ⟨0, 0, 2⟩ = true ↔
      Timestamp.toInt ⟨0, 0, 1⟩ = Timestamp.toInt ⟨0, 0, 2⟩ :=
  (timestamp_order_total ⟨0, 0, 1⟩ ⟨0, 0, 2⟩ ⟨0, 0, 3⟩
    (by decide) (by decide) (by decide)).1

/-- C10: addition is a homomorphism into linearized seconds: for valid
Timestamps, `int(t1 + t2) = int(t1) + int(t2)`, and for every integer
`k ≥ 0`, `int(t1 + k) = int(t1) + k`; in both cases the addition succeeds
and the result is a validly constructed Timestamp. -/
theorem add_homomorphism_toInt (t1 t2 : Timestamp)
    (h1 : t1.Valid) (h2 : t2.Valid) :
    (∃ u, Timestamp.addTs t1 t2 = some u ∧ u.Valid ∧
      u.toInt = t1.toInt + t2.toInt) ∧
    ∀ k : Int, 0 ≤ k → ∃ u, Timestamp.addInt t1 k = some u ∧ u.Valid ∧
      u.toInt = t1.toInt + k := by
  have n1 := toInt_nonneg t1 h1
  have n2 := toInt_nonneg t2 h2
  exact ⟨addTs_spec t1 t2 (by omega), fun k hk => addInt_spec t1 k (by omega)⟩

theorem add_homomorphism_toInt_witness :
    ∃ u, Timestamp.addTs ⟨0, 0, 30⟩ ⟨0, 0, 40⟩ = some u ∧ u.Valid ∧
      u.toInt = Timestamp.toInt ⟨0, 0, 30⟩ + Timestamp.toInt ⟨0, 0, 40⟩ :=
  (add_homomorphism_toInt ⟨0, 0, 30⟩ ⟨0, 0, 40⟩ (by decide) (by decide)).1

/-- C6: every caption consumed and kept for a roll passed the window
filters (`start` not before `window_beginning`, not after `window_end`) and
is classified by its `end`: captions in the pre-roll (context) list satisfy
`end < window_middle`, captions in the post-roll (consequence) list do not;
and on the spec's concrete scenario (captions A [5,8] and B [12,14], roll
at 00:00:10, window 5) the annotation is context "A", consequence "B". -/
theorem classification_by_end :
    (∀ wb wm we : Timestamp, ∀ cs : List Caption, ∀ c : Caption,
      (c ∈ (consumeLoop wb wm we cs).1 →
        Timestamp.lt c.start wb = false ∧ Timestamp.gt c.start we = false ∧
        Timestamp.lt c.endTime wm = true) ∧
      (c ∈ (consumeLoop wb wm we cs).2.1 →
        Timestamp.lt c.start wb = false ∧ Timestamp.gt c.start we = false ∧
        Timestamp.lt c.endTime wm = false)) ∧
    generate_annotations 5
      [⟨1, ⟨0, 0, 5⟩, ⟨0, 0, 8⟩, "A"⟩, ⟨2, ⟨0, 0, 12⟩, ⟨0, 0, 14⟩, "B"⟩]
      [⟨⟨0, 0, 10⟩, "Attack", 15, false⟩] =
      some [⟨"A", "B", "Attack", 15, false⟩] := by
  constructor
  · intro wb wm we cs
    induction cs with
    | nil =>
      intro c
      constructor <;> intro hc <;> simp [consumeLoop] at hc
    | cons a rest ih =>
      intro c
      by_cases h1 : Timestamp.lt a.start wb = true
      · have hcl : consumeLoop wb wm we (a :: rest) = consumeLoop wb wm we rest := by
          simp only [consumeLoop]
          rw [if_pos h1]
        rw [hcl]
        exact ih c
      · by_cases h2 : Timestamp.gt a.start we = true
        · have hcl : consumeLoop wb wm we (a :: rest) = ([], [], rest) := by
            simp only [consumeLoop]
            rw [if_neg h1, if_pos h2]
          rw [hcl]
          constructor <;> intro hc <;> simp at hc
        · rw [Bool.not_eq_true] at h1 h2
          by_cases h3 : Timestamp.lt a.endTime wm = true
          · have hcl : consumeLoop wb wm we (a :: rest) =
                (a :: (consumeLoop wb wm we rest).1,
                 (consumeLoop wb wm we rest).2.1,
                 (consumeLoop wb wm we rest).2.2) := by
              simp only [consumeLoop]
              rw [if_neg (by simp [h1]), if_neg (by simp [h2]), if_pos h3]
            rw [hcl]
            constructor
            · intro hc
              rcases List.mem_cons.mp hc with hc0 | hc1
              · subst hc0
                exact ⟨h1, h2, h3⟩
              · exact (ih c).1 hc1
            · exact fun hc => (ih c).2 hc
          · rw [Bool.not_eq_true] at h3
            have hcl : consumeLoop wb wm we (a :: rest) =
                ((consumeLoop wb wm we rest).1,
                 a :: (consumeLoop wb wm we rest).2.1,
                 (consumeLoop wb wm we rest).2.2) := by
              simp only [consumeLoop]
              rw [if_neg (by simp [h1]), if_neg (by simp [h2]), if_neg (by simp [h3])]
            rw [hcl]
            constructor
            · exact fun hc => (ih c).1 hc
            · intro hc
              rcases List.mem_cons.mp hc with hc0 | hc1
              · subst hc0
                exact ⟨h1, h2, h3⟩
              · exact (ih c).2 hc1
  · decide

theorem classification_by_end_witness :
    Timestamp.lt (⟨0, 0, 5⟩ : Timestamp) ⟨0, 0, 5⟩ = false ∧
    Timestamp.gt (⟨0, 0, 5⟩ : Timestamp) ⟨0, 0, 15⟩ = false ∧
    Timestamp.lt (⟨0, 0, 8⟩ : Timestamp) ⟨0, 0, 10⟩ = true :=
  (classification_by_end.1 ⟨0, 0, 5⟩ ⟨0, 0, 10⟩ ⟨0, 0, 15⟩
      [⟨1, ⟨0, 0, 5⟩, ⟨0, 0, 8⟩, "A"⟩] ⟨1, ⟨0, 0, 5⟩, ⟨0, 0, 8⟩, "A"⟩).1
    (by decide)

/-- C7: when all caption indices are distinct, no caption is assigned to
the annotations of two different rolls: the per-roll caption lists produced
by the shared forward cursor are pairwise disjoint (by caption index). -/
theorem caption_in_at_most_one_roll (window : Int) :
    ∀ (rolls : List DiceRoll) (cs : List Caption) (segs : List RollSegment),
      (cs.map Caption.index).Nodup →
      generateAux window cs rolls = some segs →
      segs.Pairwise fun s1 s2 =>
        ∀ c1 : Caption, c1 ∈ s1.pre ∨ c1 ∈ s1.post →
        ∀ c2 : Caption, c2 ∈ s2.pre ∨ c2 ∈ s2.post →
        c1.index ≠ c2.index := by
  intro rolls
  induction rolls with
  | nil =>
    intro cs segs _ h
    simp only [generateAux, Option.some.injEq] at h
    subst h
    exact List.Pairwise.nil
  | cons r rs ih =>
    intro cs segs hn h
    cases hwb : Timestamp.subInt r.timestamp window with
    | none => simp [generateAux, hwb] at h
    | some wb =>
      cases hwe : Timestamp.addInt r.timestamp window with
      | none => simp [generateAux, hwb, hwe] at h
      | some we =>
        cases hrec : generateAux window (consumeLoop wb r.timestamp we cs).2.2 rs with
        | none => simp [generateAux, hwb, hwe, hrec] at h
        | some segs2 =>
          simp only [generateAux, hwb, hwe, hrec, Option.some.injEq] at h
          subst h
          obtain ⟨p0, hp, hm⟩ := consumeLoop_split wb r.timestamp we cs
          have hn2 := hn
          rw [hp, List.map_append] at hn2
          obtain ⟨hnp, hnr, hdisj⟩ := List.nodup_append.mp hn2
          refine List.Pairwise.cons ?_ (ih _ segs2 hnr hrec)
          intro s' hs' c1 hc1 c2 hc2 heq
          have hc1p : c1 ∈ p0 := hm c1 hc1
          have hc2r : c2 ∈ (consumeLoop wb r.timestamp we cs).2.2 :=
            generateAux_subset window rs _ segs2 hrec s' hs' c2 hc2
          exact hdisj (List.mem_map_of_mem Caption.index hc1p)
            (by rw [heq]; exact List.mem_map_of_mem Caption.index hc2r)

theorem caption_in_at_most_one_roll_witness :
    List.Pairwise (fun s1 s2 : RollSegment =>
      ∀ c1 : Caption, c1 ∈ s1.pre ∨ c1 ∈ s1.post →
      ∀ c2 : Caption, c2 ∈ s2.pre ∨ c2 ∈ s2.post →
      c1.index ≠ c2.index)
      [⟨[], [⟨1, ⟨0, 0, 10⟩, ⟨0, 0, 10⟩, "A"⟩], ⟨⟨0, 0, 10⟩, "Attack", 5, false⟩⟩,
       ⟨[], [⟨3, ⟨0, 0, 20⟩, ⟨0, 0, 20⟩, "C"⟩], ⟨⟨0, 0, 20⟩, "Save", 7, true⟩⟩] :=
  caption_in_at_most_one_roll 1
    [⟨⟨0, 0, 10⟩, "Attack", 5, false⟩, ⟨⟨0, 0, 20⟩, "Save", 7, true⟩]
    [⟨1, ⟨0, 0, 10⟩, ⟨0, 0, 10⟩, "A"⟩, ⟨2, ⟨0, 0, 15⟩, ⟨0, 0, 15⟩, "B"⟩,
     ⟨3, ⟨0, 0, 20⟩, ⟨0, 0, 20⟩, "C"⟩]
    [⟨[], [⟨1, ⟨0, 0, 10⟩, ⟨0, 0, 10⟩, "A"⟩], ⟨⟨0, 0, 10⟩, "Attack", 5, false⟩⟩,
     ⟨[], [⟨3, ⟨0, 0, 20⟩, ⟨0, 0, 20⟩, "C"⟩], ⟨⟨0, 0, 20⟩, "Save", 7, true⟩⟩]
    (by decide) (by decide)
